import Mathlib

/-!
Verification of the chunk subsystem of the `cache` repository
(`cache.go`, `chunk.go`), via a shallow embedding.

The backend store is modelled as the two cells used by one chunk
(the payload record cell and the version-marker cell) together with a
log of read/write events, so that claims about I/O ordering can be
stated.  The msgpack codec is abstracted: the record cell stores the
decoded `ChunkRaw` value, as the spec allows any round-tripping codec.
The version marker cell stores raw bytes, since its 8-byte LE wire
format is itself under verification.  Go `uint64` arithmetic is
rendered as `Nat` with an explicit `% 2^64` where overflow matters.
Go's nil-map distinction is kept: a chunk data map is
`Option (List (String × List Nat))`, `none` standing for a nil map.
-/

namespace CacheSpec

/-- Bytes are modelled as lists of naturals (each intended < 256). -/
abbrev Buf := List Nat

/-- A chunk data map: association list from key to value bytes. -/
abbrev Mp := List (String × Buf)

/-- Map lookup, mirroring Go `v, ok := m[k]`. -/
def mapGet (m : Mp) (k : String) : Option Buf :=
  match m with
  | [] => none
  | (k0, v0) :: rest => if k0 = k then some v0 else mapGet rest k

/-- Map update, mirroring Go `m[k] = v`. -/
def mapSet (m : Mp) (k : String) (v : Buf) : Mp :=
  match m with
  | [] => [(k, v)]
  | (k0, v0) :: rest => if k0 = k then (k, v) :: rest else (k0, v0) :: mapSet rest k v

/-- Map deletion, mirroring Go `delete(m, k)`. -/
def mapDel (m : Mp) (k : String) : Mp :=
  match m with
  | [] => []
  | (k0, v0) :: rest => if k0 = k then mapDel rest k else (k0, v0) :: mapDel rest k

/-- `binary.LittleEndian.PutUint64`: the 8-byte little-endian encoding. -/
def putUint64LE (v : Nat) : Buf :=
  [v % 256, v / 256 % 256, v / 256 ^ 2 % 256, v / 256 ^ 3 % 256,
   v / 256 ^ 4 % 256, v / 256 ^ 5 % 256, v / 256 ^ 6 % 256, v / 256 ^ 7 % 256]

/-- `binary.LittleEndian.Uint64`: decode 8 little-endian bytes. -/
def readUint64LE (b : Buf) : Nat :=
  match b with
  | [] => 0
  | x :: rest => x + 256 * readUint64LE rest

/-- `ChunkRaw` from chunk.go: persisted chunk state.  `data = none`
models a Go nil map. -/
structure ChunkRaw where
  version : Nat
  data : Option Mp
deriving DecidableEq, Repr

instance : Inhabited ChunkRaw := ⟨⟨0, none⟩⟩

/-- Backend I/O events, recorded to state read/write ordering. -/
inductive Event where
  | readMarker : Event
  | readRecord : Event
  | writeMarker : Buf → Event
  | writeRecord : ChunkRaw → Event
deriving DecidableEq, Repr

/-- The backend state visible to one chunk: its payload record cell,
its version marker cell, and the event log. -/
structure Backend where
  record : Option ChunkRaw
  marker : Option Buf
  log : List Event
deriving DecidableEq, Repr

/-- The in-memory `Chunk` handle state (`memoryData`, `baseVersion`,
`changes`); the name and TTL are fixed per handle and do not influence
the modelled behaviour. -/
structure Chunk where
  memoryData : ChunkRaw
  baseVersion : Nat
  changes : Bool
deriving DecidableEq, Repr

/-- Errors the chunk subsystem reports. -/
inductive CacheErr where
  | chunkConflict : CacheErr
  | invalidVersionLen : Nat → CacheErr
deriving DecidableEq, Repr

/-- `getChunkKey`: backend key of the chunk payload. -/
def getChunkKey (name : String) : String :=
  "cache_package_chank_" ++ name

/-- `getChunkVersionKey`: backend key of the version marker. -/
def getChunkVersionKey (name : String) : String :=
  "cache_package_chank_" ++ name ++ "_version"

/-- The record's version as the load path sees it: an absent record is
synthesized as `{version := 0, data := {}}`. -/
def recVer (b : Backend) : Nat :=
  (b.record.getD default).version

/-- The record's data map as the load path sees it: an absent record or
a nil data map is an empty map. -/
def recData (b : Backend) : Mp :=
  (b.record.getD default).data.getD []

/-- `loadVersionKey`: read the marker cell; returns `(ver, exist, err)`
exactly as the Go function does (a stored value of length ≠ 8 is an
error with `exist = true`). -/
def loadVersionKey (b : Backend) : Backend × (Nat × Bool × Option CacheErr) :=
  let b1 : Backend := { b with log := b.log ++ [Event.readMarker] }
  match b.marker with
  | none => (b1, (0, false, none))
  | some bytes =>
      if bytes.length ≠ 8 then
        (b1, (0, true, some (CacheErr.invalidVersionLen bytes.length)))
      else
        (b1, (readUint64LE bytes, true, none))

/-- `saveVersionKey`: write the 8-byte LE marker. -/
def saveVersionKey (b : Backend) (ver : Nat) : Backend :=
  { b with marker := some (putUint64LE ver),
           log := b.log ++ [Event.writeMarker (putUint64LE ver)] }

/-- `getOrCreateChunkRaw`: read the payload cell, synthesizing
`{version := 0, data := {}}` when absent, and replacing a nil data map
by an empty one. -/
def getOrCreateChunkRaw (b : Backend) : Backend × ChunkRaw :=
  let b1 : Backend := { b with log := b.log ++ [Event.readRecord] }
  let chunkData : ChunkRaw := b.record.getD default
  let chunkData : ChunkRaw :=
    match chunkData.data with
    | none => { chunkData with data := some [] }
    | some _ => chunkData
  (b1, chunkData)

/-- `saveChunkRaw`: write the payload cell. -/
def saveChunkRaw (b : Backend) (c : ChunkRaw) : Backend :=
  { b with record := some c, log := b.log ++ [Event.writeRecord c] }

/-- `cloneChunkRaw`: deep copy of a `ChunkRaw`.  Byte duplication is
unobservable for pure values, but the function always rebuilds the map
non-nil, as in the source. -/
def cloneChunkRaw (src : ChunkRaw) : ChunkRaw :=
  { version := src.version, data := some (src.data.getD []) }

/-- `cloneChunkMapShallow`: rebuild the map (nil becomes empty),
sharing the value bytes. -/
def cloneChunkMapShallow (src : Option Mp) : Mp :=
  src.getD []

/-- `loadToMemory`: the load protocol.  Returns the updated backend and
either an error or the loaded handle state. -/
def loadToMemory (b : Backend) : Backend × Except CacheErr Chunk :=
  let (b1, (verKey, verKeyExist, err)) := loadVersionKey b
  match err with
  | some e => (b1, Except.error e)
  | none =>
    let (b2, chunkData) := getOrCreateChunkRaw b1
    if verKeyExist ∧ chunkData.version ≠ verKey then
      (b2, Except.error CacheErr.chunkConflict)
    else
      let b3 := if verKeyExist then b2 else saveVersionKey b2 chunkData.version
      (b3, Except.ok
        { memoryData := cloneChunkRaw chunkData,
          baseVersion := chunkData.version,
          changes := false })

/-- `GetRaw`: look a key up in the RAM snapshot (nil map: absent). -/
def GetRaw (h : Chunk) (key : String) : Option Buf :=
  match h.memoryData.data with
  | none => none
  | some m => mapGet m key

/-- `SetRaw`: store a (copied) value in the RAM snapshot and mark the
handle dirty; a nil map is allocated first. -/
def SetRaw (h : Chunk) (key : String) (val : Buf) : Chunk :=
  match h.memoryData.data with
  | none =>
      { h with memoryData := { h.memoryData with data := some (mapSet [] key val) },
               changes := true }
  | some m =>
      { h with memoryData := { h.memoryData with data := some (mapSet m key val) },
               changes := true }

/-- `Del`: delete a key from the RAM snapshot; on a nil map it returns
without marking the handle dirty, otherwise it marks it dirty even when
the key is absent. -/
def Del (h : Chunk) (key : String) : Chunk :=
  match h.memoryData.data with
  | none => h
  | some m =>
      { h with memoryData := { h.memoryData with data := some (mapDel m key) },
               changes := true }

/-- `GetAndDelRaw`: return the value and delete the key; on a nil map
or an absent key it returns `(none)` without touching the handle. -/
def GetAndDelRaw (h : Chunk) (key : String) : Option Buf × Chunk :=
  match h.memoryData.data with
  | none => (none, h)
  | some m =>
      match mapGet m key with
      | none => (none, h)
      | some v =>
          (some v,
           { h with memoryData := { h.memoryData with data := some (mapDel m key) },
                    changes := true })

/-- `SaveChanges`: the commit protocol with optimistic CAS.  Returns
the updated backend and either an error or the updated handle. -/
def SaveChanges (b : Backend) (h : Chunk) : Backend × Except CacheErr Chunk :=
  if h.changes = false then (b, Except.ok h)
  else
    let (b1, (verKey, verKeyExist, err)) := loadVersionKey b
    match err with
    | some e => (b1, Except.error e)
    | none =>
      if verKeyExist ∧ verKey ≠ h.baseVersion then
        (b1, Except.error CacheErr.chunkConflict)
      else
        let (b2, current) := getOrCreateChunkRaw b1
        if verKeyExist ∧ current.version ≠ verKey then
          (b2, Except.error CacheErr.chunkConflict)
        else
          let (b3, repairConflict) :=
            if verKeyExist then (b2, false)
            else
              let b3 := saveVersionKey b2 current.version
              (b3, decide (current.version ≠ h.baseVersion))
          if repairConflict then (b3, Except.error CacheErr.chunkConflict)
          else if current.version ≠ h.baseVersion then
            (b3, Except.error CacheErr.chunkConflict)
          else
            let newVer := (h.baseVersion + 1) % 2 ^ 64
            let next : ChunkRaw :=
              { version := newVer,
                data := some (cloneChunkMapShallow h.memoryData.data) }
            let b4 := saveChunkRaw b3 next
            let b5 := saveVersionKey b4 newVer
            (b5, Except.ok
              { memoryData := { h.memoryData with version := newVer },
                baseVersion := newVer,
                changes := false })

/-- Facade store for `cache.go`: what `Set` wrote per key, value bytes
together with the TTL passed.  TTL bookkeeping is only recorded, never
acted on (real-time expiry is outside the model). -/
abbrev FStore := List (String × (Buf × Int))

/-- Facade `Get`: lookup by key, absence is not an error. -/
def cacheGet (s : FStore) (k : String) : Option Buf :=
  match s with
  | [] => none
  | (k0, v0) :: rest => if k0 = k then some v0.1 else cacheGet rest k

/-- Facade lookup of the full stored entry, value bytes and TTL. -/
def cacheGetFull (s : FStore) (k : String) : Option (Buf × Int) :=
  match s with
  | [] => none
  | (k0, v0) :: rest => if k0 = k then some v0 else cacheGetFull rest k

/-- Facade `Set`: unconditional overwrite with a TTL. -/
def cacheSet (s : FStore) (k : String) (v : Buf) (ttl : Int) : FStore :=
  match s with
  | [] => [(k, (v, ttl))]
  | (k0, v0) :: rest =>
      if k0 = k then (k, (v, ttl)) :: rest else (k0, v0) :: cacheSet rest k v ttl

/-- Facade `OnSet` from cache.go: return the existing value if
present; otherwise run the factory, store its result with the TTL and
return it; a factory error propagates with no write.  The factory is
modelled by the outcome of its single permitted invocation. -/
def cacheOnSet (s : FStore) (k : String) (fn : Except String Buf) (ttl : Int) :
    FStore × Except String Buf :=
  match cacheGet s k with
  | some v => (s, Except.ok v)
  | none =>
      match fn with
      | Except.error e => (s, Except.error e)
      | Except.ok v => (cacheSet s k v ttl, Except.ok v)

/-!
Heap model for copy isolation (claim C9).  Go byte slices are mutable
buffers; to make aliasing observable, buffers live in an explicit heap
(a list of buffers addressed by index) and the snapshot maps keys to
buffer addresses.  `SetRaw`/`GetRaw` are re-rendered over this heap,
performing exactly the `make`+`copy` the source performs.
-/

/-- A heap of byte buffers; an address is an index. -/
abbrev Heap := List Buf

/-- Read the buffer at an address (out of range: empty buffer). -/
def heapGet (hp : Heap) (a : Nat) : Buf :=
  match hp, a with
  | [], _ => []
  | b :: _, 0 => b
  | _ :: rest, n + 1 => heapGet rest n

/-- Overwrite the buffer at an address in place (the caller mutating a
slice it holds). -/
def heapSet (hp : Heap) (a : Nat) (b : Buf) : Heap :=
  match hp, a with
  | [], _ => []
  | _ :: rest, 0 => b :: rest
  | x :: rest, n + 1 => x :: heapSet rest n b

/-- Snapshot with heap-allocated values: key to buffer address. -/
abbrev AMp := List (String × Nat)

/-- Address-map lookup. -/
def amGet (m : AMp) (k : String) : Option Nat :=
  match m with
  | [] => none
  | (k0, a0) :: rest => if k0 = k then some a0 else amGet rest k

/-- Address-map update. -/
def amSet (m : AMp) (k : String) (a : Nat) : AMp :=
  match m with
  | [] => [(k, a)]
  | (k0, a0) :: rest =>
      if k0 = k then (k, a) :: rest else (k0, a0) :: amSet rest k a

/-- Handle state in the heap model: the heap plus the snapshot map. -/
structure HState where
  heap : Heap
  data : AMp
deriving DecidableEq, Repr

/-- `SetRaw` over the heap: allocate a fresh buffer, copy the caller's
bytes into it (`make` + `copy`), and store the fresh address. -/
def hSetRaw (s : HState) (k : String) (vAddr : Nat) : HState :=
  let valCopy := heapGet s.heap vAddr
  { heap := s.heap ++ [valCopy], data := amSet s.data k s.heap.length }

/-- `GetRaw` over the heap: on a hit, allocate a fresh buffer holding a
copy of the stored bytes and return its address. -/
def hGetRaw (s : HState) (k : String) : HState × Option Nat :=
  match amGet s.data k with
  | none => (s, none)
  | some a =>
      let valCopy := heapGet s.heap a
      ({ s with heap := s.heap ++ [valCopy] }, some s.heap.length)

/-- The caller mutates a buffer it holds an address of. -/
def hMutate (s : HState) (a : Nat) (b : Buf) : HState :=
  { s with heap := heapSet s.heap a b }

/-- The byte content `GetRaw` hands back for a key (what the caller
observes), read off the state without allocating. -/
def hGetBytes (s : HState) (k : String) : Option Buf :=
  (amGet s.data k).map (heapGet s.heap)

/-- All addresses stored in the snapshot are live heap addresses. -/
def hWF (s : HState) : Prop :=
  ∀ k a, amGet s.data k = some a → a < s.heap.length

theorem putUint64LE_length (v : Nat) : (putUint64LE v).length = 8 := rfl

theorem readUint64LE_putUint64LE (v : Nat) :
    readUint64LE (putUint64LE v) = v % 2 ^ 64 := by
  simp [putUint64LE, readUint64LE]
  omega

/-- The commit path of `SaveChanges`: on a dirty handle whose base
version agrees with the marker (when present) and with the record,
the new record is written, then the new marker, and the handle
advances. -/
theorem saveChanges_commit_eq (b : Backend) (h : Chunk) (m : Mp)
    (hc : h.changes = true)
    (hd : h.memoryData.data = some m)
    (hmk : b.marker = none ∨
      ∃ mb, b.marker = some mb ∧ mb.length = 8 ∧ readUint64LE mb = h.baseVersion)
    (hrv : recVer b = h.baseVersion)
    (hov : h.baseVersion + 1 < 2 ^ 64) :
    SaveChanges b h =
      ({ record := some { version := h.baseVersion + 1, data := some m },
         marker := some (putUint64LE (h.baseVersion + 1)),
         log := b.log ++ [Event.readMarker, Event.readRecord] ++
           (if b.marker.isSome then [] else [Event.writeMarker (putUint64LE h.baseVersion)]) ++
           [Event.writeRecord { version := h.baseVersion + 1, data := some m },
            Event.writeMarker (putUint64LE (h.baseVersion + 1))] },
       Except.ok { memoryData := { version := h.baseVersion + 1, data := some m },
                   baseVersion := h.baseVersion + 1, changes := false }) := by
  have hov2 : h.baseVersion + 1 < 18446744073709551616 := by simpa using hov
  have hmod : (h.baseVersion + 1) % 18446744073709551616 = h.baseVersion + 1 :=
    Nat.mod_eq_of_lt hov2
  have hrv2 : (b.record.getD default).version = h.baseVersion := by simpa [recVer] using hrv
  rcases hmk with hmk | ⟨mb, hmk, hlen, hdec⟩
  · cases hd2 : (b.record.getD default).data with
    | none =>
        simp [SaveChanges, loadVersionKey, getOrCreateChunkRaw, saveVersionKey,
              saveChunkRaw, cloneChunkMapShallow, hmk, hc, hd, hd2, hrv2, hmod, hov2]
    | some mm =>
        simp [SaveChanges, loadVersionKey, getOrCreateChunkRaw, saveVersionKey,
              saveChunkRaw, cloneChunkMapShallow, hmk, hc, hd, hd2, hrv2, hmod, hov2]
  · cases hd2 : (b.record.getD default).data with
    | none =>
        simp [SaveChanges, loadVersionKey, getOrCreateChunkRaw, saveVersionKey,
              saveChunkRaw, cloneChunkMapShallow, hmk, hc, hd, hd2, hrv2, hmod, hov2,
              hlen, hdec]
    | some mm =>
        simp [SaveChanges, loadVersionKey, getOrCreateChunkRaw, saveVersionKey,
              saveChunkRaw, cloneChunkMapShallow, hmk, hc, hd, hd2, hrv2, hmod, hov2,
              hlen, hdec]

/-- The fast-fail path of `SaveChanges`: an existing marker that
disagrees with the base version aborts after the marker read alone. -/
theorem saveChanges_fastfail_eq (b : Backend) (h : Chunk) (mb : Buf)
    (hc : h.changes = true) (hmk : b.marker = some mb) (hlen : mb.length = 8)
    (hne : readUint64LE mb ≠ h.baseVersion) :
    SaveChanges b h =
      ({ b with log := b.log ++ [Event.readMarker] }, Except.error CacheErr.chunkConflict) := by
  simp [SaveChanges, loadVersionKey, hmk, hlen, hc, hne]

/-- Load with an absent marker: repair the marker from the record and
succeed. -/
theorem loadToMemory_absent_eq (b : Backend) (hmk : b.marker = none) :
    loadToMemory b =
      ({ b with marker := some (putUint64LE (recVer b)),
                log := b.log ++ [Event.readMarker, Event.readRecord,
                                 Event.writeMarker (putUint64LE (recVer b))] },
       Except.ok { memoryData := { version := recVer b, data := some (recData b) },
                   baseVersion := recVer b, changes := false }) := by
  cases hd : (b.record.getD default).data with
  | none =>
      simp [loadToMemory, loadVersionKey, getOrCreateChunkRaw, saveVersionKey,
            cloneChunkRaw, hmk, recVer, recData, hd]
  | some m =>
      simp [loadToMemory, loadVersionKey, getOrCreateChunkRaw, saveVersionKey,
            cloneChunkRaw, hmk, recVer, recData, hd]

/-- Load with a well-formed marker that agrees with the record. -/
theorem loadToMemory_present_eq (b : Backend) (mb : Buf)
    (hmk : b.marker = some mb) (hlen : mb.length = 8)
    (hdec : readUint64LE mb = recVer b) :
    loadToMemory b =
      ({ b with log := b.log ++ [Event.readMarker, Event.readRecord] },
       Except.ok { memoryData := { version := recVer b, data := some (recData b) },
                   baseVersion := recVer b, changes := false }) := by
  have hdec2 : (b.record.getD default).version = readUint64LE mb := by
    simpa [recVer] using hdec.symm
  cases hd : (b.record.getD default).data with
  | none =>
      simp [loadToMemory, loadVersionKey, getOrCreateChunkRaw, cloneChunkRaw,
            hmk, hlen, hd, hdec2, recVer, recData]
  | some m =>
      simp [loadToMemory, loadVersionKey, getOrCreateChunkRaw, cloneChunkRaw,
            hmk, hlen, hd, hdec2, recVer, recData]

/-- Inversion of a successful load: the handle carries the record's
version and data, the record cell is untouched, and afterwards the
marker exists, is 8 bytes and decodes to the record's version. -/
theorem loadToMemory_ok_inv (b b1 : Backend) (A : Chunk)
    (hv : recVer b < 2 ^ 64) (h : loadToMemory b = (b1, Except.ok A)) :
    A.baseVersion = recVer b ∧ A.changes = false ∧
    A.memoryData.data = some (recData b) ∧ b1.record = b.record ∧
    ∃ mb, b1.marker = some mb ∧ mb.length = 8 ∧ readUint64LE mb = recVer b := by
  cases hmk : b.marker with
  | none =>
      rw [loadToMemory_absent_eq b hmk] at h
      injection h with hb hok
      injection hok with hA
      subst hb; subst hA
      refine ⟨rfl, rfl, rfl, rfl, putUint64LE (recVer b), rfl, putUint64LE_length _, ?_⟩
      rw [readUint64LE_putUint64LE]
      exact Nat.mod_eq_of_lt hv
  | some mb =>
      by_cases hlen : mb.length = 8
      · by_cases hdec : readUint64LE mb = recVer b
        · rw [loadToMemory_present_eq b mb hmk hlen hdec] at h
          injection h with hb hok
          injection hok with hA
          subst hb; subst hA
          exact ⟨rfl, rfl, rfl, rfl, mb, by simpa using hmk, hlen, hdec⟩
        · exfalso
          have hdec2 : ¬ (b.record.getD default).version = readUint64LE mb := by
            intro he
            exact hdec (by simpa [recVer] using he.symm)
          cases hd : (b.record.getD default).data with
          | none =>
              simp [loadToMemory, loadVersionKey, getOrCreateChunkRaw, hmk, hlen,
                    hdec2, hd] at h
          | some m =>
              simp [loadToMemory, loadVersionKey, getOrCreateChunkRaw, hmk, hlen,
                    hdec2, hd] at h
      · simp [loadToMemory, loadVersionKey, hmk, hlen] at h

/-- `SetRaw` keeps the base version, marks the handle dirty, and
leaves a non-nil data map. -/
theorem setRaw_state (h : Chunk) (k : String) (v : Buf) :
    (SetRaw h k v).baseVersion = h.baseVersion ∧ (SetRaw h k v).changes = true ∧
    ∃ m, (SetRaw h k v).memoryData.data = some m := by
  cases hd : h.memoryData.data <;> simp [SetRaw, hd]

theorem cacheGetFull_cacheSet (s : FStore) (k : String) (v : Buf) (ttl : Int) :
    cacheGetFull (cacheSet s k v ttl) k = some (v, ttl) := by
  induction s with
  | nil => simp [cacheSet, cacheGetFull]
  | cons p rest ih =>
      obtain ⟨k0, v0⟩ := p
      by_cases hk : k0 = k <;> simp [cacheSet, cacheGetFull, hk, ih]

theorem heapGet_append_self (hp : Heap) (c : Buf) :
    heapGet (hp ++ [c]) hp.length = c := by
  induction hp with
  | nil => rfl
  | cons x rest ih => simpa [heapGet] using ih

theorem heapGet_append_lt (hp l : Heap) (a : Nat) (ha : a < hp.length) :
    heapGet (hp ++ l) a = heapGet hp a := by
  induction hp generalizing a with
  | nil => simp at ha
  | cons x rest ih =>
      cases a with
      | zero => rfl
      | succ n => simpa [heapGet] using ih n (by simpa using ha)

theorem heapGet_heapSet_ne (hp : Heap) (a a2 : Nat) (bf : Buf) (hne : a ≠ a2) :
    heapGet (heapSet hp a2 bf) a = heapGet hp a := by
  induction hp generalizing a a2 with
  | nil => rfl
  | cons x rest ih =>
      cases a2 with
      | zero =>
          cases a with
          | zero => exact absurd rfl hne
          | succ n => rfl
      | succ n2 =>
          cases a with
          | zero => rfl
          | succ n => simpa [heapGet, heapSet] using ih n n2 (by omega)

theorem amGet_amSet_self (m : AMp) (k : String) (a : Nat) :
    amGet (amSet m k a) k = some a := by
  induction m with
  | nil => simp [amSet, amGet]
  | cons p rest ih =>
      obtain ⟨k0, a0⟩ := p
      by_cases hk : k0 = k <;> simp [amSet, amGet, hk, ih]

/-- C1: for a dirty handle whose backend state passes every conflict
check (the marker, when present, is 8 bytes and decodes to
`baseVersion`; the stored record's version equals `baseVersion`),
`SaveChanges` succeeds, writes the record with version
`baseVersion + 1` and data equal to the snapshot, then the marker with
the same new version (the record write strictly before the marker
write, as the log shows), and leaves the handle at the new base
version with the snapshot data unchanged and `changes = false`. -/
theorem SaveChanges_commit_spec (b : Backend) (h : Chunk) (m : Mp)
    (hc : h.changes = true)
    (hd : h.memoryData.data = some m)
    (hmk : b.marker = none ∨
      ∃ mb, b.marker = some mb ∧ mb.length = 8 ∧ readUint64LE mb = h.baseVersion)
    (hrv : recVer b = h.baseVersion)
    (hov : h.baseVersion + 1 < 2 ^ 64) :
    SaveChanges b h =
      ({ record := some { version := h.baseVersion + 1, data := some m },
         marker := some (putUint64LE (h.baseVersion + 1)),
         log := b.log ++ [Event.readMarker, Event.readRecord] ++
           (if b.marker.isSome then [] else [Event.writeMarker (putUint64LE h.baseVersion)]) ++
           [Event.writeRecord { version := h.baseVersion + 1, data := some m },
            Event.writeMarker (putUint64LE (h.baseVersion + 1))] },
       Except.ok { memoryData := { version := h.baseVersion + 1, data := some m },
                   baseVersion := h.baseVersion + 1, changes := false }) :=
  saveChanges_commit_eq b h m hc hd hmk hrv hov

/-- C1 witness: a concrete commit at base version 5. -/
theorem SaveChanges_commit_spec_witness :
    SaveChanges
        { record := some { version := 5, data := some [("a", [1])] },
          marker := some (putUint64LE 5), log := [] }
        { memoryData := { version := 5, data := some [("a", [1]), ("b", [2])] },
          baseVersion := 5, changes := true } =
      ({ record := some { version := 6, data := some [("a", [1]), ("b", [2])] },
         marker := some (putUint64LE 6),
         log := [Event.readMarker, Event.readRecord,
                 Event.writeRecord { version := 6, data := some [("a", [1]), ("b", [2])] },
                 Event.writeMarker (putUint64LE 6)] },
       Except.ok { memoryData := { version := 6, data := some [("a", [1]), ("b", [2])] },
                   baseVersion := 6, changes := false }) :=
  SaveChanges_commit_spec _ _ [("a", [1]), ("b", [2])] rfl rfl
    (Or.inr ⟨putUint64LE 5, rfl, rfl, by decide⟩) (by decide) (by decide)

/-- C2: for a dirty handle, when the marker exists (8 bytes) and
decodes to a value different from `baseVersion`, `SaveChanges` fails
with the conflict error after the marker read alone: the record cell is
neither read nor written and the marker is not written. -/
theorem SaveChanges_fast_conflict_spec (b : Backend) (h : Chunk) (mb : Buf)
    (hc : h.changes = true) (hmk : b.marker = some mb) (hlen : mb.length = 8)
    (hne : readUint64LE mb ≠ h.baseVersion) :
    SaveChanges b h =
      ({ b with log := b.log ++ [Event.readMarker] },
       Except.error CacheErr.chunkConflict) :=
  saveChanges_fastfail_eq b h mb hc hmk hlen hne

/-- C2 witness: marker at version 6 against a handle at base 5. -/
theorem SaveChanges_fast_conflict_spec_witness :
    SaveChanges
        { record := some { version := 6, data := some [] },
          marker := some (putUint64LE 6), log := [] }
        { memoryData := { version := 5, data := some [] },
          baseVersion := 5, changes := true } =
      ({ record := some { version := 6, data := some [] },
         marker := some (putUint64LE 6), log := [Event.readMarker] },
       Except.error CacheErr.chunkConflict) :=
  SaveChanges_fast_conflict_spec _ _ (putUint64LE 6) rfl rfl rfl (by decide)

/-- C3: for a dirty handle, when the marker is absent, `SaveChanges`
reads the record, writes the marker with the record's version, and then
fails with the conflict error when that version differs from
`baseVersion` (the stricter re-check variant), without writing the
record. -/
theorem SaveChanges_repair_conflict_spec (b : Backend) (h : Chunk)
    (hc : h.changes = true) (hmk : b.marker = none) (hne : recVer b ≠ h.baseVersion) :
    SaveChanges b h =
      ({ b with marker := some (putUint64LE (recVer b)),
                log := b.log ++ [Event.readMarker, Event.readRecord,
                                 Event.writeMarker (putUint64LE (recVer b))] },
       Except.error CacheErr.chunkConflict) := by
  have hne2 : (b.record.getD default).version ≠ h.baseVersion := by
    simpa [recVer] using hne
  cases hd : (b.record.getD default).data with
  | none =>
      simp [SaveChanges, loadVersionKey, getOrCreateChunkRaw, saveVersionKey,
            hmk, hc, hne2, recVer, hd]
  | some m =>
      simp [SaveChanges, loadVersionKey, getOrCreateChunkRaw, saveVersionKey,
            hmk, hc, hne2, recVer, hd]

/-- C3 witness: absent marker, record at version 6, handle at base 5. -/
theorem SaveChanges_repair_conflict_spec_witness :
    SaveChanges
        { record := some { version := 6, data := some [] }, marker := none, log := [] }
        { memoryData := { version := 5, data := some [] },
          baseVersion := 5, changes := true } =
      ({ record := some { version := 6, data := some [] },
         marker := some (putUint64LE 6),
         log := [Event.readMarker, Event.readRecord,
                 Event.writeMarker (putUint64LE 6)] },
       Except.error CacheErr.chunkConflict) :=
  SaveChanges_repair_conflict_spec _ _ rfl rfl (by decide)

/-- C4: loading fails with the conflict error when the marker exists (8
bytes) but decodes to a value different from the record's version (an
absent record being synthesized at version 0); when the marker is
absent, loading writes the marker with the record's version and
succeeds with `baseVersion` equal to that version and a clean handle. -/
theorem loadToMemory_conflict_spec (b : Backend) :
    (∀ mb, b.marker = some mb → mb.length = 8 → readUint64LE mb ≠ recVer b →
      (loadToMemory b).2 = Except.error CacheErr.chunkConflict) ∧
    (b.marker = none →
      loadToMemory b =
        ({ b with marker := some (putUint64LE (recVer b)),
                  log := b.log ++ [Event.readMarker, Event.readRecord,
                                   Event.writeMarker (putUint64LE (recVer b))] },
         Except.ok { memoryData := { version := recVer b, data := some (recData b) },
                     baseVersion := recVer b, changes := false })) := by
  constructor
  · intro mb hmk hlen hne
    have hne2 : (b.record.getD default).version ≠ readUint64LE mb := by
      simpa [recVer] using Ne.symm hne
    cases hd : (b.record.getD default).data with
    | none =>
        simp [loadToMemory, loadVersionKey, getOrCreateChunkRaw, hmk, hlen, hne2, hd]
    | some m =>
        simp [loadToMemory, loadVersionKey, getOrCreateChunkRaw, hmk, hlen, hne2, hd]
  · intro hmk
    exact loadToMemory_absent_eq b hmk

/-- C4 witness: a marker at 4 against a record at 5 conflicts; an
absent marker is repaired to the record's version 5. -/
theorem loadToMemory_conflict_spec_witness :
    (loadToMemory { record := some { version := 5, data := some [] },
                    marker := some (putUint64LE 4), log := [] }).2 =
      Except.error CacheErr.chunkConflict ∧
    loadToMemory { record := some { version := 5, data := some [("a", [9])] },
                   marker := none, log := [] } =
      ({ record := some { version := 5, data := some [("a", [9])] },
         marker := some (putUint64LE 5),
         log := [Event.readMarker, Event.readRecord,
                 Event.writeMarker (putUint64LE 5)] },
       Except.ok { memoryData := { version := 5, data := some [("a", [9])] },
                   baseVersion := 5, changes := false }) :=
  ⟨(loadToMemory_conflict_spec _).1 (putUint64LE 4) rfl rfl (by decide),
   (loadToMemory_conflict_spec _).2 rfl⟩

/-- C5: two handles loaded in turn from the same backend; after the
first one sets a key and commits, the second handle's set-and-commit
fails with the conflict error, and the backend record and marker still
hold exactly the first handle's committed version and data. -/
theorem conflict_detection_spec (b0 b1 b2 b3 : Backend) (A B A2 : Chunk)
    (kA kB : String) (vA vB : Buf)
    (hov : recVer b0 + 1 < 2 ^ 64)
    (hA : loadToMemory b0 = (b1, Except.ok A))
    (hB : loadToMemory b1 = (b2, Except.ok B))
    (hAS : SaveChanges b2 (SetRaw A kA vA) = (b3, Except.ok A2)) :
    (SaveChanges b3 (SetRaw B kB vB)).2 = Except.error CacheErr.chunkConflict ∧
    (SaveChanges b3 (SetRaw B kB vB)).1.record = b3.record ∧
    (SaveChanges b3 (SetRaw B kB vB)).1.marker = b3.marker ∧
    b3.record = some { version := recVer b0 + 1,
                       data := (SetRaw A kA vA).memoryData.data } ∧
    b3.marker = some (putUint64LE (recVer b0 + 1)) := by
  have hv0 : recVer b0 < 2 ^ 64 := by omega
  obtain ⟨hAbase, hAch, hAdata, hb1rec, mb1, hb1mk, hb1len, hb1dec⟩ :=
    loadToMemory_ok_inv b0 b1 A hv0 hA
  have hrv1 : recVer b1 = recVer b0 := by simp [recVer, hb1rec]
  obtain ⟨hBbase, hBch, hBdata, hb2rec, mb2, hb2mk, hb2len, hb2dec⟩ :=
    loadToMemory_ok_inv b1 b2 B (by rw [hrv1]; exact hv0) hB
  have hrv2 : recVer b2 = recVer b0 := by simp [recVer, hb2rec, hb1rec]
  obtain ⟨hsb, hsc, m, hsd⟩ := setRaw_state A kA vA
  have hAbase2 : (SetRaw A kA vA).baseVersion = recVer b0 := by rw [hsb, hAbase]
  have hcommit := saveChanges_commit_eq b2 (SetRaw A kA vA) m hsc hsd
    (Or.inr ⟨mb2, hb2mk, hb2len, by rw [hb2dec, hrv1, hAbase2]⟩)
    (by rw [hrv2, hAbase2]) (by rw [hAbase2]; exact hov)
  rw [hAbase2] at hcommit
  rw [hcommit] at hAS
  injection hAS with hb3 hA2eq
  have hb3rec : b3.record = some { version := recVer b0 + 1, data := some m } := by
    rw [← hb3]
  have hb3mk : b3.marker = some (putUint64LE (recVer b0 + 1)) := by
    rw [← hb3]
  obtain ⟨hsb2, hsc2, m2, hsd2⟩ := setRaw_state B kB vB
  have hBbase2 : (SetRaw B kB vB).baseVersion = recVer b0 := by
    rw [hsb2, hBbase, hrv1]
  have hneq : readUint64LE (putUint64LE (recVer b0 + 1)) ≠ (SetRaw B kB vB).baseVersion := by
    rw [readUint64LE_putUint64LE, Nat.mod_eq_of_lt hov, hBbase2]
    omega
  have hfail := saveChanges_fastfail_eq b3 (SetRaw B kB vB) (putUint64LE (recVer b0 + 1))
    hsc2 hb3mk (putUint64LE_length _) hneq
  rw [hfail]
  exact ⟨rfl, rfl, rfl, by rw [hb3rec, ← hsd], hb3mk⟩

/-- C5 witness: a concrete two-handle race at version 0; the loser's
commit conflicts and the winner's commit survives. -/
theorem conflict_detection_spec_witness :
    (SaveChanges
        { record := some { version := 1, data := some [("k", [1])] },
          marker := some (putUint64LE 1),
          log := [Event.readMarker, Event.readRecord, Event.readMarker,
                  Event.readRecord, Event.readMarker, Event.readRecord,
                  Event.writeRecord { version := 1, data := some [("k", [1])] },
                  Event.writeMarker (putUint64LE 1)] }
        (SetRaw { memoryData := { version := 0, data := some [] },
                  baseVersion := 0, changes := false } "j" [2])).2 =
      Except.error CacheErr.chunkConflict ∧
    (some { version := 1, data := some [("k", [1])] } : Option ChunkRaw) =
      some { version := 1, data := some [("k", [1])] } ∧
    (some (putUint64LE 1) : Option Buf) = some (putUint64LE 1) := by
  have h := conflict_detection_spec
    { record := some { version := 0, data := some [] },
      marker := some (putUint64LE 0), log := [] }
    { record := some { version := 0, data := some [] },
      marker := some (putUint64LE 0),
      log := [Event.readMarker, Event.readRecord] }
    { record := some { version := 0, data := some [] },
      marker := some (putUint64LE 0),
      log := [Event.readMarker, Event.readRecord, Event.readMarker, Event.readRecord] }
    { record := some { version := 1, data := some [("k", [1])] },
      marker := some (putUint64LE 1),
      log := [Event.readMarker, Event.readRecord, Event.readMarker,
              Event.readRecord, Event.readMarker, Event.readRecord,
              Event.writeRecord { version := 1, data := some [("k", [1])] },
              Event.writeMarker (putUint64LE 1)] }
    { memoryData := { version := 0, data := some [] }, baseVersion := 0, changes := false }
    { memoryData := { version := 0, data := some [] }, baseVersion := 0, changes := false }
    { memoryData := { version := 1, data := some [("k", [1])] },
      baseVersion := 1, changes := false }
    "k" "j" [1] [2] (by decide) rfl rfl rfl
  exact ⟨h.1, rfl, rfl⟩

/-- C6 counterexample: on an empty (non-nil) snapshot and an absent
key, `GetAndDelRaw` leaves `changes = false` while `Del` would set
`changes = true`, so `getAndDelete` is not `get` followed by `delete`. -/
theorem getAndDel_dirty_cex :
    (GetAndDelRaw { memoryData := { version := 0, data := some [] },
                    baseVersion := 0, changes := false } "k").2.changes = false ∧
    (Del { memoryData := { version := 0, data := some [] },
           baseVersion := 0, changes := false } "k").changes = true := by
  decide

/-- C6 amended: `GetAndDelRaw` returns exactly what `GetRaw` returns;
on a present key it leaves the handle in the state `Del` produces (key
removed, `changes = true`); on an absent key (or a nil map) it leaves
the handle unchanged, in particular it does not set `changes`. -/
theorem getAndDel_amended_spec (h : Chunk) (key : String) :
    (GetAndDelRaw h key).1 = GetRaw h key ∧
    ((GetRaw h key).isSome = true → GetAndDelRaw h key = (GetRaw h key, Del h key)) ∧
    (GetRaw h key = none → (GetAndDelRaw h key).2 = h) := by
  cases hd : h.memoryData.data with
  | none => simp [GetAndDelRaw, GetRaw, Del, hd]
  | some m =>
      cases hg : mapGet m key with
      | none => simp [GetAndDelRaw, GetRaw, Del, hd, hg]
      | some v => simp [GetAndDelRaw, GetRaw, Del, hd, hg]

/-- C6 witness: on a present key, `GetAndDelRaw` equals get plus
delete. -/
theorem getAndDel_amended_spec_witness :
    (GetAndDelRaw { memoryData := { version := 0, data := some [("a", [1])] },
                    baseVersion := 0, changes := false } "a").1 =
      GetRaw { memoryData := { version := 0, data := some [("a", [1])] },
               baseVersion := 0, changes := false } "a" ∧
    GetAndDelRaw { memoryData := { version := 0, data := some [("a", [1])] },
                   baseVersion := 0, changes := false } "a" =
      (GetRaw { memoryData := { version := 0, data := some [("a", [1])] },
                baseVersion := 0, changes := false } "a",
       Del { memoryData := { version := 0, data := some [("a", [1])] },
             baseVersion := 0, changes := false } "a") :=
  ⟨(getAndDel_amended_spec _ "a").1,
   (getAndDel_amended_spec _ "a").2.1 (by decide)⟩

/-- C7: a stored marker whose length is not 8 bytes yields, from the
marker read, a non-conflict error together with `exist = true` (never
absence), and both `loadToMemory` and `SaveChanges` on a dirty handle
propagate that same error. -/
theorem malformed_marker_spec (b : Backend) (mb : Buf) (h : Chunk)
    (hmk : b.marker = some mb) (hlen : mb.length ≠ 8) (hc : h.changes = true) :
    (loadVersionKey b).2 = (0, true, some (CacheErr.invalidVersionLen mb.length)) ∧
    CacheErr.invalidVersionLen mb.length ≠ CacheErr.chunkConflict ∧
    (loadToMemory b).2 = Except.error (CacheErr.invalidVersionLen mb.length) ∧
    (SaveChanges b h).2 = Except.error (CacheErr.invalidVersionLen mb.length) := by
  refine ⟨?_, by simp, ?_, ?_⟩
  · simp [loadVersionKey, hmk, hlen]
  · simp [loadToMemory, loadVersionKey, hmk, hlen]
  · simp [SaveChanges, loadVersionKey, hmk, hlen, hc]

/-- C7 witness: a 3-byte marker value. -/
theorem malformed_marker_spec_witness :
    (loadVersionKey { record := some { version := 0, data := some [] },
                      marker := some [1, 2, 3], log := [] }).2 =
      (0, true, some (CacheErr.invalidVersionLen 3)) ∧
    CacheErr.invalidVersionLen 3 ≠ CacheErr.chunkConflict ∧
    (loadToMemory { record := some { version := 0, data := some [] },
                    marker := some [1, 2, 3], log := [] }).2 =
      Except.error (CacheErr.invalidVersionLen 3) ∧
    (SaveChanges { record := some { version := 0, data := some [] },
                   marker := some [1, 2, 3], log := [] }
        { memoryData := { version := 0, data := some [] },
          baseVersion := 0, changes := true }).2 =
      Except.error (CacheErr.invalidVersionLen 3) :=
  malformed_marker_spec _ [1, 2, 3] _ rfl (by decide) rfl

/-- C8: the facade `OnSet` returns the existing value without
consulting the factory when the key is present; on a miss it stores the
factory's value under the key with the given TTL and returns it; a
factory error propagates with no write. -/
theorem onSet_facade_spec (s : FStore) (k : String) (ttl : Int) :
    (∀ v fn, cacheGet s k = some v → cacheOnSet s k fn ttl = (s, Except.ok v)) ∧
    (∀ v, cacheGet s k = none →
      cacheOnSet s k (Except.ok v) ttl = (cacheSet s k v ttl, Except.ok v) ∧
      cacheGetFull (cacheSet s k v ttl) k = some (v, ttl)) ∧
    (∀ e, cacheGet s k = none → cacheOnSet s k (Except.error e) ttl = (s, Except.error e)) := by
  refine ⟨?_, ?_, ?_⟩
  · intro v fn hg
    simp [cacheOnSet, hg]
  · intro v hg
    exact ⟨by simp [cacheOnSet, hg], cacheGetFull_cacheSet s k v ttl⟩
  · intro e hg
    simp [cacheOnSet, hg]

/-- C8 witness: hit, miss-and-store, and factory failure, each at a
concrete store. -/
theorem onSet_facade_spec_witness :
    cacheOnSet [("k", ([7], 60))] "k" (Except.error "boom") 60 =
      ([("k", ([7], 60))], Except.ok [7]) ∧
    cacheOnSet [] "k" (Except.ok [9]) 60 = ([("k", ([9], 60))], Except.ok [9]) ∧
    cacheGetFull [("k", ([9], 60))] "k" = some ([9], 60) ∧
    cacheOnSet [] "k" (Except.error "boom") 60 = ([], Except.error "boom") :=
  ⟨(onSet_facade_spec [("k", ([7], 60))] "k" 60).1 [7] (Except.error "boom") (by decide),
   ((onSet_facade_spec [] "k" 60).2.1 [9] rfl).1,
   ((onSet_facade_spec [] "k" 60).2.1 [9] rfl).2,
   (onSet_facade_spec [] "k" 60).2.2 "boom" rfl⟩

/-- C9: copy isolation over the heap model of `SetRaw`/`GetRaw`: after
a set, mutating the caller's input buffer does not change what get
returns; mutating the buffer get returned does not change what a later
get returns; and the buffer get returns holds exactly the stored
bytes. -/
theorem copy_isolation_spec (s s1 : HState) (k : String) (vAddr a : Nat) (bf : Buf) :
    (vAddr < s.heap.length →
      hGetBytes (hMutate (hSetRaw s k vAddr) vAddr bf) k = some (heapGet s.heap vAddr) ∧
      hGetBytes (hSetRaw s k vAddr) k = some (heapGet s.heap vAddr)) ∧
    (hWF s → hGetRaw s k = (s1, some a) →
      hGetBytes (hMutate s1 a bf) k = hGetBytes s k) ∧
    (hGetRaw s k = (s1, some a) →
      heapGet s1.heap a = (hGetBytes s k).getD []) := by
  refine ⟨?_, ?_, ?_⟩
  · intro hv
    have hne : s.heap.length ≠ vAddr := Ne.symm (Nat.ne_of_lt hv)
    constructor
    · simp only [hSetRaw, hMutate, hGetBytes, amGet_amSet_self, Option.map_some']
      rw [heapGet_heapSet_ne _ _ _ _ hne, heapGet_append_self]
    · simp only [hSetRaw, hGetBytes, amGet_amSet_self, Option.map_some']
      rw [heapGet_append_self]
  · intro hwf hg
    cases hag : amGet s.data k with
    | none => simp [hGetRaw, hag] at hg
    | some addr =>
        simp only [hGetRaw, hag, Prod.mk.injEq] at hg
        obtain ⟨hs1, ha⟩ := hg
        have haddr : addr < s.heap.length := hwf k addr hag
        subst hs1
        have ha2 : a = s.heap.length := by simpa using ha.symm
        subst ha2
        simp only [hMutate, hGetBytes, hag, Option.map_some']
        rw [heapGet_heapSet_ne _ _ _ _ (Nat.ne_of_lt haddr),
            heapGet_append_lt _ _ _ haddr]
  · intro hg
    cases hag : amGet s.data k with
    | none => simp [hGetRaw, hag] at hg
    | some addr =>
        simp only [hGetRaw, hag, Prod.mk.injEq] at hg
        obtain ⟨hs1, ha⟩ := hg
        subst hs1
        have ha2 : a = s.heap.length := by simpa using ha.symm
        subst ha2
        simp [hGetBytes, hag, heapGet_append_self]

/-- C9 witness: concrete buffers; mutating the input after set, and
mutating get's returned buffer, leave reads unchanged. -/
theorem copy_isolation_spec_witness :
    hGetBytes (hMutate (hSetRaw { heap := [[9]], data := [] } "k" 0) 0 [5]) "k" =
      some [9] ∧
    hGetBytes (hMutate { heap := [[7], [7]], data := [("k", 0)] } 1 [5]) "k" =
      hGetBytes { heap := [[7]], data := [("k", 0)] } "k" := by
  constructor
  · exact ((copy_isolation_spec { heap := [[9]], data := [] }
      { heap := [[9]], data := [] } "k" 0 0 [5]).1 (by decide)).1
  · refine (copy_isolation_spec { heap := [[7]], data := [("k", 0)] }
      { heap := [[7], [7]], data := [("k", 0)] } "k" 0 1 [5]).2.1 ?_ (by decide)
    intro key addr hh
    by_cases hk : "k" = key
    · simp [amGet, hk] at hh
      subst hh
      decide
    · simp [amGet, hk] at hh

/-- C10: the derived version key of a chunk name equals the derived
payload key of the name with `_version` appended, so the key scheme is
not collision-free across chunk names. -/
theorem versionKey_collision_spec (n : String) :
    getChunkVersionKey n = getChunkKey (n ++ "_version") := by
  simp [getChunkKey, getChunkVersionKey, String.append_assoc]

end CacheSpec
